import Mathlib

/-!
Shallow embedding of the fhEVM SDK Provider Protocol Client
(packages/fhevm-sdk/src: encryption.ts, decryption.ts, provider.ts, utils.ts).

Pure functions of the TypeScript source are translated to Lean functions;
the stateful `FHEProvider` class becomes explicit state passing on a state
structure; promise rejection / thrown errors become `Except`; the external
fhevmjs engine and the gateway contract become explicit stub parameters, with
call counts returned alongside results so that "no engine/ledger call is
performed" is a provable statement.

JS numbers are modelled as rationals (`ℚ`): the source's comparisons
(`value < 0`, `value > 255`) and `Number.isInteger` are exact on every value
these claims exercise.  JS `parseInt` / `Number.prototype.toString` are
modelled exactly for integers in the float-exact range (|n| ≤ 2^53); theorems
about the normalizer carry that bound as a hypothesis.
-/

/-! ## Hex encoding (`'0x' + Buffer.from(bytes).toString('hex')`) -/

/-- One hex digit character for a value `n < 16` (lowercase, as Node's
`Buffer.toString('hex')` produces). -/
def hexChar (n : Nat) : Char :=
  if n < 10 then Char.ofNat (48 + n) else Char.ofNat (87 + n)

/-- Two hex characters for one byte. -/
def byteToHex (b : Nat) : List Char :=
  [hexChar ((b / 16) % 16), hexChar (b % 16)]

/-- Model of `'0x' + Buffer.from(encrypted).toString('hex')`. -/
def bytesToHex (bs : List Nat) : String :=
  "0x" ++ String.mk ((bs.map byteToHex).flatten)

/-! ## JS numeric string primitives used by `parseDecryptedValue` -/

/-- Value of a list of decimal digit characters. -/
def decDigitsVal (cs : List Char) : Nat :=
  cs.foldl (fun a c => 10 * a + (c.toNat - 48)) 0

/-- Model of JS `parseInt(s, 10)`: skip leading whitespace, optional sign,
longest decimal-digit prefix; `none` models `NaN` (no digits found).  The
numeric value is kept exact (`Int`); float rounding above 2^53 is outside the
model, so theorems using it restrict to the float-exact range. -/
def jsParseInt (s : String) : Option Int :=
  let cs := s.toList.dropWhile Char.isWhitespace
  let signed : Int × List Char :=
    match cs with
    | '-' :: t => (-1, t)
    | '+' :: t => (1, t)
    | t => (1, t)
  let digits := signed.2.takeWhile Char.isDigit
  if digits.isEmpty then none
  else some (signed.1 * (decDigitsVal digits : Int))

/-- Model of `Number.prototype.toString` on an integer-valued number in the
float-exact range: canonical decimal digits with `-` for negatives (note
`(-0).toString() = "0"`, matched here since `Int` has a single zero). -/
def intToDecString (n : Int) : String :=
  if n < 0 then "-" ++ Nat.repr n.natAbs else Nat.repr n.toNat

/-- Nonempty all-decimal-digit parse. -/
def parseDecCore (cs : List Char) : Option Nat :=
  if cs ≠ [] ∧ cs.all Char.isDigit then some (decDigitsVal cs) else none

/-- Hex digit test. -/
def isHexDigitCh (c : Char) : Bool :=
  c.isDigit || ('a' ≤ c && c ≤ 'f') || ('A' ≤ c && c ≤ 'F')

/-- Hex digit value. -/
def hexDigitVal (c : Char) : Nat :=
  if c.isDigit then c.toNat - 48
  else if 'a' ≤ c && c ≤ 'f' then c.toNat - 87
  else c.toNat - 55

/-- Digits of radix `r` (r ∈ {2, 8, 16}) after a `0x`/`0o`/`0b` prefix. -/
def parseRadixDigits (r : Nat) (cs : List Char) : Option Nat :=
  let ok : Char → Bool := fun c =>
    if r = 16 then isHexDigitCh c
    else if r = 8 then '0' ≤ c && c ≤ '7'
    else c = '0' || c = '1'
  if cs ≠ [] ∧ cs.all ok then
    some (cs.foldl (fun a c => r * a + hexDigitVal c) 0)
  else none

/-- Optionally signed nonempty decimal digit run. -/
def parseSignedDec (cs : List Char) : Option Int :=
  match cs with
  | '-' :: t => (parseDecCore t).map (fun n => -(n : Int))
  | '+' :: t => (parseDecCore t).map (fun n => (n : Int))
  | t => (parseDecCore t).map (fun n => (n : Int))

/-- Model of JS `BigInt(s)` (ECMA StringToBigInt): trim whitespace on both
sides; empty string is `0`; `0x`/`0o`/`0b` radix prefixes (no sign); otherwise
an optionally signed decimal digit run; anything else throws (`none`). -/
def jsBigInt (s : String) : Option Int :=
  let cs := ((s.toList.dropWhile Char.isWhitespace).reverse.dropWhile
      Char.isWhitespace).reverse
  match cs with
  | [] => some 0
  | '0' :: c :: t =>
    if c = 'x' ∨ c = 'X' then (parseRadixDigits 16 t).map (fun n => (n : Int))
    else if c = 'o' ∨ c = 'O' then (parseRadixDigits 8 t).map (fun n => (n : Int))
    else if c = 'b' ∨ c = 'B' then (parseRadixDigits 2 t).map (fun n => (n : Int))
    else parseSignedDec cs
  | _ => parseSignedDec cs

/-! ## Result Normalizer (`parseDecryptedValue`, decryption.ts) -/

/-- The `DecryptResult` of types.ts: raw string plus optional number / bigint /
boolean interpretations. -/
structure DecryptResult where
  value : String
  numberValue : Option Int := none
  bigintValue : Option Int := none
  boolValue : Option Bool := none
deriving DecidableEq, Repr

/-- Translation of `parseDecryptedValue` of decryption.ts.  The source mutates a result
record in three steps; here each field is computed by the same rule:
`numberValue` iff `parseInt` is non-NaN and `num.toString() === value`;
`boolValue` iff `numberValue` was set and the number is 0 or 1;
`bigintValue` iff `BigInt(value)` does not throw, independently. -/
def parseDecryptedValue (value : String) : DecryptResult :=
  let numPart : Option Int :=
    match jsParseInt value with
    | none => none
    | some num => if intToDecString num = value then some num else none
  let boolPart : Option Bool :=
    match numPart with
    | none => none
    | some num => if num = 0 ∨ num = 1 then some (num = 1) else none
  { value := value
    numberValue := numPart
    bigintValue := jsBigInt value
    boolValue := boolPart }

example : parseDecryptedValue "0" =
    { value := "0", numberValue := some 0, bigintValue := some 0,
      boolValue := some false } := by decide

example : parseDecryptedValue "1" =
    { value := "1", numberValue := some 1, bigintValue := some 1,
      boolValue := some true } := by decide

example : parseDecryptedValue "2" =
    { value := "2", numberValue := some 2, bigintValue := some 2,
      boolValue := none } := by decide

example : parseDecryptedValue "abc" =
    { value := "abc", numberValue := none, bigintValue := none,
      boolValue := none } := by decide

example : (parseDecryptedValue "-0").numberValue = none := by decide

example : (parseDecryptedValue " 5").numberValue = none := by decide

example : (parseDecryptedValue "12.5").numberValue = none := by decide

/-! ## Type Validator helpers (utils.ts) -/

/-- Translation of `isValidAddress` of utils.ts: `/^0x[a-fA-F0-9]{40}$/`. -/
def isValidAddress (s : String) : Bool :=
  match s.toList with
  | '0' :: 'x' :: t => t.length = 40 && t.all isHexDigitCh
  | _ => false

/-- Translation of `isUint8` of utils.ts: `Number.isInteger(value) && value >= 0 && value <= 255`. -/
def isUint8 (v : ℚ) : Bool :=
  v.isInt && decide (0 ≤ v) && decide (v ≤ 255)

/-- Translation of `isUint16` of utils.ts. -/
def isUint16 (v : ℚ) : Bool :=
  v.isInt && decide (0 ≤ v) && decide (v ≤ 65535)

/-- Translation of `isUint32` of utils.ts. -/
def isUint32 (v : ℚ) : Bool :=
  v.isInt && decide (0 ≤ v) && decide (v ≤ 4294967295)

/-- Translation of `isUint64` of utils.ts (bigint argument, so an exact integer). -/
def isUint64 (v : Int) : Bool :=
  decide (0 ≤ v) && decide (v ≤ 18446744073709551615)

/-! ## Encryption Dispatcher (`createFHEInstance`, encryption.ts)

The fhevmjs instance returned by `fhevmjs.createInstance` is opaque: one
per-kind `encrypt_*` operation, each returning raw ciphertext bytes.  It is
modelled as a structure of stub functions.  `number` arguments (uint8/16/32)
are rationals, `bigint` arguments (uint64/128/256) are integers. -/

structure EngineStub where
  encrypt_bool : Bool → List Nat
  encrypt_uint8 : ℚ → List Nat
  encrypt_uint16 : ℚ → List Nat
  encrypt_uint32 : ℚ → List Nat
  encrypt_uint64 : Int → List Nat
  encrypt_uint128 : Int → List Nat
  encrypt_uint256 : Int → List Nat
  encrypt_address : String → List Nat

deriving instance DecidableEq for Except

/-- Outcome of one per-kind encrypt operation: the settled promise
(`Except` for throw/reject) together with how many times the underlying
engine `encrypt_*` operation was invoked. -/
abbrev EncOutcome := Except String String × Nat

/-- The `FHEInstance` record built by `createFHEInstance`. -/
structure FHEInstanceModel where
  encryptBool : Bool → EncOutcome
  encryptUint8 : ℚ → EncOutcome
  encryptUint16 : ℚ → EncOutcome
  encryptUint32 : ℚ → EncOutcome
  encryptUint64 : Int → EncOutcome
  encryptUint128 : Int → EncOutcome
  encryptUint256 : Int → EncOutcome
  encryptAddress : String → EncOutcome

/-- Translation of `createFHEInstance` of encryption.ts: builds the per-kind encrypt
operations over the engine instance.  Each unsigned-integer operation
range-checks (`value < 0 || value > max`) and throws a kind-specific error
before any engine call; the address operation checks the address regex;
the boolean operation has no validation. -/
def createFHEInstance (eng : EngineStub) : FHEInstanceModel where
  encryptBool := fun v => (.ok (bytesToHex (eng.encrypt_bool v)), 1)
  encryptUint8 := fun v =>
    if v < 0 ∨ v > 255 then
      (.error "Value must be between 0 and 255 for uint8", 0)
    else (.ok (bytesToHex (eng.encrypt_uint8 v)), 1)
  encryptUint16 := fun v =>
    if v < 0 ∨ v > 65535 then
      (.error "Value must be between 0 and 65535 for uint16", 0)
    else (.ok (bytesToHex (eng.encrypt_uint16 v)), 1)
  encryptUint32 := fun v =>
    if v < 0 ∨ v > 4294967295 then
      (.error "Value must be between 0 and 4294967295 for uint32", 0)
    else (.ok (bytesToHex (eng.encrypt_uint32 v)), 1)
  encryptUint64 := fun v =>
    if v < 0 ∨ v > 18446744073709551615 then
      (.error "Value must be between 0 and 2^64-1 for uint64", 0)
    else (.ok (bytesToHex (eng.encrypt_uint64 v)), 1)
  encryptUint128 := fun v =>
    if v < 0 ∨ v > 2 ^ 128 - 1 then
      (.error "Value must be between 0 and 2^128-1 for uint128", 0)
    else (.ok (bytesToHex (eng.encrypt_uint128 v)), 1)
  encryptUint256 := fun v =>
    if v < 0 ∨ v > 2 ^ 256 - 1 then
      (.error "Value must be between 0 and 2^256-1 for uint256", 0)
    else (.ok (bytesToHex (eng.encrypt_uint256 v)), 1)
  encryptAddress := fun v =>
    if !isValidAddress v then
      (.error "Invalid Ethereum address format", 0)
    else (.ok (bytesToHex (eng.encrypt_address v)), 1)

/-- Route an integer to the per-kind encrypt operation of the declared
width (`number`-typed operations receive the integer cast to a JS number,
which is exact for these claims). -/
def encryptUintAt (inst : FHEInstanceModel) (w : Nat) (v : Int) : EncOutcome :=
  match w with
  | 8 => inst.encryptUint8 (v : ℚ)
  | 16 => inst.encryptUint16 (v : ℚ)
  | 32 => inst.encryptUint32 (v : ℚ)
  | 64 => inst.encryptUint64 v
  | 128 => inst.encryptUint128 v
  | 256 => inst.encryptUint256 v
  | _ => (.error "unsupported width", 0)

/-- The kind-specific range error message thrown for each width. -/
def uintRangeError (w : Nat) : String :=
  match w with
  | 8 => "Value must be between 0 and 255 for uint8"
  | 16 => "Value must be between 0 and 65535 for uint16"
  | 32 => "Value must be between 0 and 4294967295 for uint32"
  | 64 => "Value must be between 0 and 2^64-1 for uint64"
  | 128 => "Value must be between 0 and 2^128-1 for uint128"
  | 256 => "Value must be between 0 and 2^256-1 for uint256"
  | _ => ""

/-- A concrete stub engine for witnesses: every kind encrypts to one byte. -/
def stubEngine : EngineStub where
  encrypt_bool := fun _ => [0]
  encrypt_uint8 := fun _ => [1]
  encrypt_uint16 := fun _ => [2]
  encrypt_uint32 := fun _ => [3]
  encrypt_uint64 := fun _ => [4]
  encrypt_uint128 := fun _ => [5]
  encrypt_uint256 := fun _ => [6]
  encrypt_address := fun _ => [7]

example : (createFHEInstance stubEngine).encryptUint8 200 =
    (.ok "0x01", 1) := by decide
example : (createFHEInstance stubEngine).encryptUint8 256 =
    (.error "Value must be between 0 and 255 for uint8", 0) := by decide
example : (createFHEInstance stubEngine).encryptUint8 (Rat.mk' 1 2) =
    (.ok "0x01", 1) := by decide
example : isUint8 (Rat.mk' 1 2) = false := by decide

/-! ## Typed-Authorization Builder (`createDecryptTypedData`, decryption.ts) -/

/-- EIP-712 domain of the typed data. -/
structure EIP712Domain where
  name : String
  version : String
  chainId : Nat
  verifyingContract : String
deriving DecidableEq, Repr

/-- One entry of the `Decrypt` field list (`{ name, type }`). -/
structure EIP712Field where
  name : String
  type : String
deriving DecidableEq, Repr

/-- The `message` payload of the typed data. -/
structure DecryptMessage where
  handle : String
  contractAddress : String
  userAddress : String
deriving DecidableEq, Repr

/-- The `EIP712DecryptTypedData` of types.ts (`types.Decrypt` is the ordered
field list). -/
structure EIP712DecryptTypedData where
  domain : EIP712Domain
  typesDecrypt : List EIP712Field
  message : DecryptMessage
deriving DecidableEq, Repr

/-- Translation of `createDecryptTypedData` of decryption.ts. -/
def createDecryptTypedData (chainId : Nat) (gatewayAddress handle
    contractAddress userAddress : String) : EIP712DecryptTypedData where
  domain :=
    { name := "FHE Gateway"
      version := "2.0"
      chainId := chainId
      verifyingContract := gatewayAddress }
  typesDecrypt :=
    [{ name := "handle", type := "uint256" },
     { name := "contractAddress", type := "address" },
     { name := "userAddress", type := "address" }]
  message :=
    { handle := handle
      contractAddress := contractAddress
      userAddress := userAddress }

/-! ## Ledger collaborator and public decryption (decryption.ts)

The gateway contract reached through ethers is modelled as a structure of
responses; `publicDecrypt` returns the settled promise together with the
number of calls made to the `getDecryptedValue` value getter. -/

/-- The gateway contract surface consumed by `publicDecrypt`: the permission
predicate and the value getter (a uint256, rendered to its decimal string by
`BigNumber.toString()`). -/
structure Ledger where
  isPublicDecryptAllowed : String → Bool
  getDecryptedValue : String → Nat

/-- Settled result of `publicDecrypt` plus the number of
`getDecryptedValue` calls performed. -/
structure PublicDecryptOutcome where
  result : Except String DecryptResult
  getterCalls : Nat
deriving DecidableEq, Repr

/-- Translation of `publicDecrypt` of decryption.ts: query `isPublicDecryptAllowed(handle)`;
if false, throw without touching the value getter; if true, read the value
and normalize its decimal string. -/
def publicDecrypt (L : Ledger) (handle : String) : PublicDecryptOutcome :=
  if L.isPublicDecryptAllowed handle then
    { result := .ok (parseDecryptedValue (Nat.repr (L.getDecryptedValue handle)))
      getterCalls := 1 }
  else
    { result := .error "Public decryption not allowed for this handle"
      getterCalls := 0 }

/-! ## `waitForDecryptResult` (decryption.ts) as a small-step process

Each call creates its own `ethers.Contract` object and installs its own
`DecryptionResponse` listener on it, plus one timer.  The promise executor is
modelled as a state machine driven by a trace of occurrences: ledger
`DecryptionResponse` events and the timer firing.  `listening` tracks whether
the contract object still has its listener (`removeAllListeners` clears it);
`outcome` is the settled promise (`none` while pending).  `clearTimeout` is
modelled by the timer branch being a no-op once the listener is gone (the
timer is cleared exactly when the promise resolves, and after a timeout it
has already fired). -/

/-- One `waitForDecryptResult` promise in flight. -/
structure WaitProc where
  target : String
  listening : Bool
  outcome : Option (Except String DecryptResult)
deriving DecidableEq, Repr

/-- State right after `waitForDecryptResult` starts: listener installed,
promise pending. -/
def WaitProc.start (handle : String) : WaitProc :=
  { target := handle, listening := true, outcome := none }

/-- An occurrence visible to one wait: a `DecryptionResponse(handle, value)`
event, or this wait's timeout timer firing. -/
inductive WaitEvt where
  | response (handle : String) (value : Nat)
  | timeoutFire
deriving DecidableEq, Repr

/-- The event listener body: if still listening and the event's handle
matches, clear the timer, remove the listeners and resolve with the
normalized value; otherwise nothing. -/
def WaitProc.onEvent (p : WaitProc) (h : String) (v : Nat) : WaitProc :=
  if p.listening then
    if h = p.target then
      { target := p.target, listening := false
        outcome := some (.ok (parseDecryptedValue (Nat.repr v))) }
    else p
  else p

/-- The timer callback: remove the listeners and reject with the timeout
error; a no-op once the promise has settled (the timer was cleared on
resolution, and fires at most once). -/
def WaitProc.onTimeout (p : WaitProc) : WaitProc :=
  if p.listening then
    { target := p.target, listening := false
      outcome := some (.error "Decryption timeout") }
  else p

/-- One occurrence. -/
def WaitProc.step (p : WaitProc) : WaitEvt → WaitProc
  | .response h v => p.onEvent h v
  | .timeoutFire => p.onTimeout

/-- Run a wait over a trace of occurrences. -/
def WaitProc.run (p : WaitProc) (evts : List WaitEvt) : WaitProc :=
  evts.foldl WaitProc.step p

/-! ## Concurrent waits and subscriptions (for the subscription-count claims)

A system of in-flight `waitForDecryptResult` calls: starting a wait appends a
new process with its own freshly installed listener; a ledger event is
delivered to every contract object that still listens; a timer firing targets
the wait that owns it.  `removeAllListeners` on one contract object does not
affect the others. -/

/-- System operations. -/
inductive SysOp where
  | start (handle : String)
  | deliver (handle : String) (value : Nat)
  | fireTimeout (i : Nat)
deriving DecidableEq, Repr

/-- Apply `f` to the element at position `i` (identity out of range). -/
def modifyAt (f : WaitProc → WaitProc) : Nat → List WaitProc → List WaitProc
  | _, [] => []
  | 0, p :: t => f p :: t
  | Nat.succ n, p :: t => p :: modifyAt f n t

/-- Apply one system operation. -/
def sysStep (ps : List WaitProc) : SysOp → List WaitProc
  | .start h => ps ++ [WaitProc.start h]
  | .deliver h v => ps.map (fun p => p.onEvent h v)
  | .fireTimeout i => modifyAt WaitProc.onTimeout i ps

/-- Run a sequence of system operations from a system state. -/
def sysRun (ps : List WaitProc) (ops : List SysOp) : List WaitProc :=
  ops.foldl sysStep ps

/-- Number of active `DecryptionResponse` subscriptions. -/
def activeSubscriptions (ps : List WaitProc) : Nat :=
  (ps.filter (fun p => p.listening)).length

/-- Number of waits whose promise is still pending. -/
def outstandingWaits (ps : List WaitProc) : Nat :=
  (ps.filter (fun p => p.outcome.isNone)).length

/-! ## Batch decryption (`decryptBatch`, decryption.ts)

`decryptBatch` loops over the handles, awaiting `decrypt` for each in turn
and pushing results; an exception from any item propagates out of the loop,
rejecting the whole call.  The per-handle `decrypt` outcome is a parameter;
alongside the settled result we return the trace of handles for which
`decrypt` was invoked, in call order. -/

/-- Translation of `decryptBatch` of decryption.ts, with a call trace. -/
def decryptBatchRun (dec : String → Except String DecryptResult) :
    List String → Except String (List DecryptResult) × List String
  | [] => (.ok [], [])
  | h :: t =>
    match dec h with
    | .error e => (.error e, [h])
    | .ok r =>
      let rest := decryptBatchRun dec t
      ((rest.1).map (fun rs => r :: rs), h :: rest.2)

/-! ## Provider State Machine (`FHEProvider`, provider.ts)

The class fields become a state structure (`fheInstance` stands for the
source's `instance` field, a reserved word in Lean).  `initialize` assigns
`config` and `provider` before awaiting engine construction
(`createFHEInstance`); the engine construction outcome is a parameter.  The
eth provider object is opaque and modelled as a `Nat` identity. -/

/-- The `FHEConfig` of types.ts. -/
structure FHEConfig where
  chainId : Nat
  gatewayAddress : String
  aclAddress : Option String := none
  kmsVerifierAddress : Option String := none

/-- An opaque ethers provider object (identity only). -/
abbrev EthProvider := Nat

/-- The private fields of class `FHEProvider`. -/
structure ProviderState where
  fheInstance : Option FHEInstanceModel
  config : Option FHEConfig
  provider : Option EthProvider
  isInitialized : Bool

/-- A freshly constructed `FHEProvider`. -/
def ProviderState.fresh : ProviderState :=
  { fheInstance := none, config := none, provider := none,
    isInitialized := false }

/-- Translation of `FHEProvider.initialize(config, provider?)`: throws if already
initialized; otherwise assigns `config` and `provider`, then awaits
`createFHEInstance(config)` (outcome `engineResult`); on success stores the
instance and sets `isInitialized`; on rejection the error propagates but the
already-performed field assignments remain.  Returns the state after the
call together with the thrown error, if any. -/
def ProviderState.initialize (s : ProviderState) (config : FHEConfig)
    (provider : Option EthProvider)
    (engineResult : Except String FHEInstanceModel) :
    ProviderState × Option String :=
  if s.isInitialized then
    (s, some "FHE Provider is already initialized")
  else
    match engineResult with
    | .error e =>
      ({ s with config := some config, provider := provider }, some e)
    | .ok inst =>
      ({ s with
          config := some config
          provider := provider
          fheInstance := some inst
          isInitialized := true }, none)

/-- Translation of `FHEProvider.getInstance()`. -/
def ProviderState.getInstance (s : ProviderState) :
    Except String FHEInstanceModel :=
  match s.fheInstance with
  | none => .error "FHE Provider not initialized. Call initialize() first."
  | some inst => .ok inst

/-- Translation of `FHEProvider.getConfig()`. -/
def ProviderState.getConfig (s : ProviderState) : Except String FHEConfig :=
  match s.config with
  | none => .error "FHE Provider not initialized. Call initialize() first."
  | some c => .ok c

/-- Translation of `FHEProvider.getProvider()`. -/
def ProviderState.getProvider (s : ProviderState) : Except String EthProvider :=
  match s.provider with
  | none => .error "No provider set. Call setProvider() first."
  | some p => .ok p

/-- Translation of `FHEProvider.isReady()`. -/
def ProviderState.isReady (s : ProviderState) : Bool :=
  s.isInitialized && s.fheInstance.isSome

/-- Translation of `FHEProvider.reset()`. -/
def ProviderState.reset (_s : ProviderState) : ProviderState :=
  ProviderState.fresh

/-- Shared shape of the eight `FHEProvider.encrypt*` methods: get the
instance (throwing the uninitialized error if absent, with no engine call),
then delegate to the per-kind instance operation. -/
def ProviderState.encryptWith (s : ProviderState)
    (op : FHEInstanceModel → EncOutcome) : EncOutcome :=
  match s.getInstance with
  | .error e => (.error e, 0)
  | .ok inst => op inst

/-- Translation of `FHEProvider.encryptBool`. -/
def ProviderState.encryptBool (s : ProviderState) (v : Bool) : EncOutcome :=
  s.encryptWith (fun inst => inst.encryptBool v)

/-- Translation of `FHEProvider.encryptUint8`. -/
def ProviderState.encryptUint8 (s : ProviderState) (v : ℚ) : EncOutcome :=
  s.encryptWith (fun inst => inst.encryptUint8 v)

/-- Translation of `FHEProvider.encryptUint16`. -/
def ProviderState.encryptUint16 (s : ProviderState) (v : ℚ) : EncOutcome :=
  s.encryptWith (fun inst => inst.encryptUint16 v)

/-- Translation of `FHEProvider.encryptUint32`. -/
def ProviderState.encryptUint32 (s : ProviderState) (v : ℚ) : EncOutcome :=
  s.encryptWith (fun inst => inst.encryptUint32 v)

/-- Translation of `FHEProvider.encryptUint64`. -/
def ProviderState.encryptUint64 (s : ProviderState) (v : Int) : EncOutcome :=
  s.encryptWith (fun inst => inst.encryptUint64 v)

/-- Translation of `FHEProvider.encryptUint128`. -/
def ProviderState.encryptUint128 (s : ProviderState) (v : Int) : EncOutcome :=
  s.encryptWith (fun inst => inst.encryptUint128 v)

/-- Translation of `FHEProvider.encryptUint256`. -/
def ProviderState.encryptUint256 (s : ProviderState) (v : Int) : EncOutcome :=
  s.encryptWith (fun inst => inst.encryptUint256 v)

/-- Translation of `FHEProvider.encryptAddress`. -/
def ProviderState.encryptAddress (s : ProviderState) (v : String) : EncOutcome :=
  s.encryptWith (fun inst => inst.encryptAddress v)

/-- Translation of `FHEProvider.publicDecrypt(handle)`: `getConfig()` then `getProvider()`
(each throwing if unset, before any ledger call), then the module-level
`publicDecrypt` against the gateway contract at the configured address. -/
def ProviderState.publicDecryptM (s : ProviderState) (L : Ledger)
    (handle : String) : PublicDecryptOutcome :=
  match s.getConfig with
  | .error e => { result := .error e, getterCalls := 0 }
  | .ok _ =>
    match s.getProvider with
    | .error e => { result := .error e, getterCalls := 0 }
    | .ok _ => publicDecrypt L handle

/-- Translation of `FHEProvider.decrypt(request)`: `getConfig()` then `getProvider()`, then
the module-level `decrypt` = `requestUserDecrypt` (signing) followed by
`waitForDecryptResult`, here run over a trace of occurrences.  The boolean
records whether the ledger flow (submission + event subscription) was
reached; the settled promise is `none` while the wait is still pending. -/
def ProviderState.decryptM (s : ProviderState) (handle : String)
    (evts : List WaitEvt) : Option (Except String DecryptResult) × Bool :=
  match s.getConfig with
  | .error e => (some (.error e), false)
  | .ok _ =>
    match s.getProvider with
    | .error e => (some (.error e), false)
    | .ok _ => ((WaitProc.run (WaitProc.start handle) evts).outcome, true)

/-! ## Theorems -/

/-- C8: for every input tuple, `createDecryptTypedData` returns exactly the
typed-authorization message with domain
`{name: "FHE Gateway", version: "2.0", chainId, verifyingContract: gatewayAddress}`,
the ordered field list `handle (uint256)`, `contractAddress (address)`,
`userAddress (address)`, and payload `{handle, contractAddress, userAddress}`;
being a function of its arguments, equal inputs produce equal messages. -/
theorem createDecryptTypedData_spec (chainId : Nat)
    (gatewayAddress handle contractAddress userAddress : String) :
    createDecryptTypedData chainId gatewayAddress handle contractAddress
        userAddress =
      { domain :=
          { name := "FHE Gateway"
            version := "2.0"
            chainId := chainId
            verifyingContract := gatewayAddress }
        typesDecrypt :=
          [{ name := "handle", type := "uint256" },
           { name := "contractAddress", type := "address" },
           { name := "userAddress", type := "address" }]
        message :=
          { handle := handle
            contractAddress := contractAddress
            userAddress := userAddress } } := rfl

/-- C6: `publicDecrypt` first queries `isPublicDecryptAllowed(handle)`; when
false it fails with the not-permitted error and `getDecryptedValue` is never
called; when true it reads the value once and returns the normalized raw
scalar. -/
theorem publicDecrypt_permission_gate (L : Ledger) (handle : String) :
    (L.isPublicDecryptAllowed handle = false →
      publicDecrypt L handle =
        { result := .error "Public decryption not allowed for this handle"
          getterCalls := 0 })
    ∧ (L.isPublicDecryptAllowed handle = true →
      publicDecrypt L handle =
        { result := .ok (parseDecryptedValue
            (Nat.repr (L.getDecryptedValue handle)))
          getterCalls := 1 }) := by
  constructor <;> intro h <;> simp [publicDecrypt, h]

/-- A two-handle stub ledger: only handle `"h1"` is publicly decryptable. -/
def witnessLedger : Ledger where
  isPublicDecryptAllowed := fun h => h = "h1"
  getDecryptedValue := fun _ => 7

/-- Witness for C6 at the stub ledger and handle `"h2"`. -/
theorem publicDecrypt_permission_gate_witness :
    witnessLedger.isPublicDecryptAllowed "h2" = false ∧
    publicDecrypt witnessLedger "h2" =
      { result := .error "Public decryption not allowed for this handle"
        getterCalls := 0 } :=
  ⟨by decide, (publicDecrypt_permission_gate witnessLedger "h2").1 (by decide)⟩

/-- C10: when engine construction rejects during
`FHEProvider.initialize(config, provider)`, the call rejects with that error
and `isReady()` stays false, but the `config` and `provider` fields already
hold the passed values: `getConfig()` and `getProvider()` return them instead
of throwing the not-initialized error. -/
theorem initialize_engineFailure (cfg : FHEConfig) (p : EthProvider)
    (e : String) :
    (( ProviderState.fresh.initialize cfg (some p) (.error e)).2 = some e)
    ∧ (( ProviderState.fresh.initialize cfg (some p) (.error e)).1.isReady
        = false)
    ∧ (( ProviderState.fresh.initialize cfg (some p) (.error e)).1.getConfig
        = .ok cfg)
    ∧ (( ProviderState.fresh.initialize cfg (some p) (.error e)).1.getProvider
        = .ok p) :=
  ⟨rfl, rfl, rfl, rfl⟩

/-- C2 counterexample: the non-integer number 1/2 is accepted by the uint8
encrypt operation of `createFHEInstance` — validation passes (it checks only
the range) and the engine is invoked once — even though the standalone
`isUint8` helper classifies it as invalid. -/
theorem uint8_nonInteger_accepted_counterexample :
    (Rat.mk' 1 2).isInt = false
    ∧ isUint8 (Rat.mk' 1 2) = false
    ∧ (createFHEInstance stubEngine).encryptUint8 (Rat.mk' 1 2) =
        (.ok "0x01", 1) := by
  refine ⟨by decide, by decide, by decide⟩

/-- C2 amended: the uint8/16/32 encrypt operations of `createFHEInstance`
validate only the range `0 ≤ v ≤ 2^w − 1`; a non-integer numeric input inside
the range passes validation and the engine operation is called; integrality
is enforced only by the standalone helpers `isUint8`/`isUint16`/`isUint32`,
which the encrypt path does not invoke. -/
theorem createFHEInstance_smallUint_range_only (eng : EngineStub) (v : ℚ)
    (hint : v.isInt = false) (h0 : 0 ≤ v) :
    isUint8 v = false ∧ isUint16 v = false ∧ isUint32 v = false
    ∧ (v ≤ 255 → (createFHEInstance eng).encryptUint8 v =
        (.ok (bytesToHex (eng.encrypt_uint8 v)), 1))
    ∧ (v ≤ 65535 → (createFHEInstance eng).encryptUint16 v =
        (.ok (bytesToHex (eng.encrypt_uint16 v)), 1))
    ∧ (v ≤ 4294967295 → (createFHEInstance eng).encryptUint32 v =
        (.ok (bytesToHex (eng.encrypt_uint32 v)), 1)) := by
  refine ⟨by simp [isUint8, hint], by simp [isUint16, hint],
    by simp [isUint32, hint], ?_, ?_, ?_⟩ <;>
  · intro hB
    have hg := not_or.mpr ⟨not_lt.mpr h0, not_lt.mpr hB⟩
    simp only [createFHEInstance]
    rw [if_neg hg]

/-- Witness for the C2 amended theorem at 1/2 and the stub engine. -/
theorem createFHEInstance_smallUint_range_only_witness :
    ((Rat.mk' 1 2).isInt = false ∧ (0 : ℚ) ≤ Rat.mk' 1 2)
    ∧ (isUint8 (Rat.mk' 1 2) = false
      ∧ isUint16 (Rat.mk' 1 2) = false
      ∧ isUint32 (Rat.mk' 1 2) = false
      ∧ (Rat.mk' 1 2 ≤ 255 →
          (createFHEInstance stubEngine).encryptUint8 (Rat.mk' 1 2) =
            (.ok (bytesToHex (stubEngine.encrypt_uint8 (Rat.mk' 1 2))), 1))
      ∧ (Rat.mk' 1 2 ≤ 65535 →
          (createFHEInstance stubEngine).encryptUint16 (Rat.mk' 1 2) =
            (.ok (bytesToHex (stubEngine.encrypt_uint16 (Rat.mk' 1 2))), 1))
      ∧ (Rat.mk' 1 2 ≤ 4294967295 →
          (createFHEInstance stubEngine).encryptUint32 (Rat.mk' 1 2) =
            (.ok (bytesToHex (stubEngine.encrypt_uint32 (Rat.mk' 1 2))), 1))) :=
  ⟨⟨by decide, by decide⟩,
    createFHEInstance_smallUint_range_only stubEngine (Rat.mk' 1 2)
      (by decide) (by decide)⟩

/-- C7: `decryptBatch` processes its handles strictly in input order; when
any item fails, the whole call rejects with that error — the call trace stops
at the failing handle (later items are never attempted) and no partial
results are surfaced; when every item succeeds, every handle is processed in
input order and the call resolves. -/
theorem decryptBatch_failFast (dec : String → Except String DecryptResult) :
    (∀ pre h post e, (∀ x ∈ pre, (dec x).isOk = true) → dec h = .error e →
      decryptBatchRun dec (pre ++ h :: post) = (.error e, pre ++ [h]))
    ∧ (∀ hs, (∀ x ∈ hs, (dec x).isOk = true) →
      (decryptBatchRun dec hs).2 = hs
      ∧ (decryptBatchRun dec hs).1.isOk = true) := by
  constructor
  · intro pre h post e hpre hfail
    induction pre with
    | nil => simp [decryptBatchRun, hfail]
    | cons a t ih =>
      have ha : (dec a).isOk = true := hpre a (by simp)
      obtain ⟨r, hr⟩ : ∃ r, dec a = .ok r := by
        cases hda : dec a with
        | error e' => rw [hda] at ha; simp [Except.isOk, Except.toBool] at ha
        | ok r => exact ⟨r, rfl⟩
      have ih' := ih (fun x hx => hpre x (by simp [hx]))
      simp [decryptBatchRun, hr, ih', Except.map]
  · intro hs hok
    induction hs with
    | nil => simp [decryptBatchRun, Except.isOk, Except.toBool]
    | cons a t ih =>
      have ha : (dec a).isOk = true := hok a (by simp)
      obtain ⟨r, hr⟩ : ∃ r, dec a = .ok r := by
        cases hda : dec a with
        | error e' => rw [hda] at ha; simp [Except.isOk, Except.toBool] at ha
        | ok r => exact ⟨r, rfl⟩
      have ih' := ih (fun x hx => hok x (by simp [hx]))
      obtain ⟨h1, h2⟩ := ih'
      constructor
      · simp [decryptBatchRun, hr, h1]
      · cases hres : (decryptBatchRun dec t).1 with
        | error e' =>
          rw [hres] at h2; simp [Except.isOk, Except.toBool] at h2
        | ok rs =>
          simp [decryptBatchRun, hr, hres, Except.isOk, Except.toBool,
            Except.map]

/-- Per-handle decrypt stub for the C7 witness: `"h2"` times out, everything
else resolves to the normalization of `"1"`. -/
def witnessDec (h : String) : Except String DecryptResult :=
  if h = "h2" then .error "Decryption timeout"
  else .ok (parseDecryptedValue "1")

/-- Witness for C7: the batch `[h1, h2, h3]` where `h2` fails rejects as a
whole, with only `h1` and `h2` ever attempted. -/
theorem decryptBatch_failFast_witness :
    ((∀ x ∈ ["h1"], (witnessDec x).isOk = true)
      ∧ witnessDec "h2" = .error "Decryption timeout")
    ∧ decryptBatchRun witnessDec (["h1"] ++ "h2" :: ["h3"]) =
        (.error "Decryption timeout", ["h1"] ++ ["h2"]) :=
  ⟨⟨by decide, by decide⟩,
    (decryptBatch_failFast witnessDec).1 ["h1"] "h2" ["h3"]
      "Decryption timeout" (by decide) (by decide)⟩

/-- A settled wait (listener removed, promise settled) is unaffected by any
further occurrences. -/
theorem WaitProc.run_settled (p : WaitProc) (evts : List WaitEvt)
    (hl : p.listening = false) : p.run evts = p := by
  induction evts with
  | nil => rfl
  | cons e t ih =>
    have hstep : p.step e = p := by
      cases e with
      | response h v => simp [WaitProc.step, WaitProc.onEvent, hl]
      | timeoutFire => simp [WaitProc.step, WaitProc.onTimeout, hl]
    show WaitProc.run (p.step e) t = p
    rw [hstep]; exact ih

/-- The state of a wait after rejecting with the timeout error. -/
def WaitProc.timedOut (handle : String) : WaitProc :=
  { target := handle, listening := false
    outcome := some (.error "Decryption timeout") }

/-- Over a trace with no matching confirmation, a wait is either still
pending (as freshly started) or already timed out. -/
theorem WaitProc.run_no_match (target : String) (evts : List WaitEvt)
    (hno : ∀ h v, WaitEvt.response h v ∈ evts → h ≠ target) :
    WaitProc.run (WaitProc.start target) evts = WaitProc.start target
    ∨ WaitProc.run (WaitProc.start target) evts = WaitProc.timedOut target := by
  induction evts with
  | nil => exact Or.inl rfl
  | cons e t ih =>
    show WaitProc.run ((WaitProc.start target).step e) t = WaitProc.start target
      ∨ WaitProc.run ((WaitProc.start target).step e) t =
          WaitProc.timedOut target
    cases e with
    | response h v =>
      have hne : h ≠ target := hno h v (by simp)
      have hstep : (WaitProc.start target).step (.response h v) =
          WaitProc.start target := by
        simp [WaitProc.step, WaitProc.onEvent, WaitProc.start, hne]
      rw [hstep]
      exact ih (fun h' v' hm => hno h' v' (by simp [hm]))
    | timeoutFire =>
      have hstep : (WaitProc.start target).step .timeoutFire =
          WaitProc.timedOut target := by
        simp [WaitProc.step, WaitProc.onTimeout, WaitProc.start,
          WaitProc.timedOut]
      rw [hstep]
      exact Or.inr (WaitProc.run_settled _ t rfl)

/-- C5: if no confirmation event matching the wait's handle arrives before
the deadline fires, the wait rejects with the timeout error and its listener
is removed; every occurrence after the rejection — including a confirmation
for the same handle — leaves the settled state untouched (no stale
resolution). -/
theorem waitForDecryptResult_timeout (target : String)
    (pre post : List WaitEvt)
    (hno : ∀ h v, WaitEvt.response h v ∈ pre → h ≠ target) :
    WaitProc.run (WaitProc.start target)
        (pre ++ WaitEvt.timeoutFire :: post) =
      { target := target, listening := false
        outcome := some (.error "Decryption timeout") } := by
  have hsplit : WaitProc.run (WaitProc.start target)
      (pre ++ WaitEvt.timeoutFire :: post) =
      WaitProc.run (WaitProc.run (WaitProc.start target) pre)
        (WaitEvt.timeoutFire :: post) := by
    simp [WaitProc.run, List.foldl_append]
  rw [hsplit]
  rcases WaitProc.run_no_match target pre hno with h | h <;> rw [h]
  · show WaitProc.run ((WaitProc.start target).step .timeoutFire) post = _
    have hstep : (WaitProc.start target).step .timeoutFire =
        WaitProc.timedOut target := by
      simp [WaitProc.step, WaitProc.onTimeout, WaitProc.start,
        WaitProc.timedOut]
    rw [hstep]
    exact WaitProc.run_settled _ post rfl
  · show WaitProc.run ((WaitProc.timedOut target).step .timeoutFire) post = _
    have hstep : (WaitProc.timedOut target).step .timeoutFire =
        WaitProc.timedOut target := by
      simp [WaitProc.step, WaitProc.onTimeout, WaitProc.timedOut]
    rw [hstep]
    exact WaitProc.run_settled _ post rfl

/-- Witness for C5: waiting on `"h1"`, a foreign confirmation, then the
deadline, then a late matching confirmation — the wait ends rejected with
the timeout error and the late event had no effect. -/
theorem waitForDecryptResult_timeout_witness :
    (∀ h v, WaitEvt.response h v ∈ [WaitEvt.response "h2" 5] → h ≠ "h1")
    ∧ WaitProc.run (WaitProc.start "h1")
        ([WaitEvt.response "h2" 5] ++
          WaitEvt.timeoutFire :: [WaitEvt.response "h1" 7]) =
      { target := "h1", listening := false
        outcome := some (.error "Decryption timeout") } := by
  have hno : ∀ h v, WaitEvt.response h v ∈ [WaitEvt.response "h2" 5] →
      h ≠ "h1" := by
    intro h v hm
    simp only [List.mem_singleton] at hm
    injection hm with h1 h2
    subst h1
    decide
  exact ⟨hno, waitForDecryptResult_timeout "h1" _ _ hno⟩

/-- C9 counterexample: two outstanding waits started back to back yield two
simultaneously active `DecryptionResponse` subscriptions (each call installs
a listener on its own contract object), refuting "at most one active
subscription regardless of how many requests are outstanding". -/
theorem subscriptions_not_singleton_counterexample :
    outstandingWaits (sysRun [] [SysOp.start "h1", SysOp.start "h2"]) = 2
    ∧ activeSubscriptions (sysRun [] [SysOp.start "h1", SysOp.start "h2"]) = 2
    ∧ ¬(activeSubscriptions
        (sysRun [] [SysOp.start "h1", SysOp.start "h2"]) ≤ 1) := by
  refine ⟨by decide, by decide, by decide⟩

/-- Membership in `modifyAt f i ps`: every element is an element of `ps` or
the image under `f` of one. -/
theorem modifyAt_mem (f : WaitProc → WaitProc) :
    ∀ (i : Nat) (ps : List WaitProc), ∀ p ∈ modifyAt f i ps,
      p ∈ ps ∨ ∃ q ∈ ps, p = f q := by
  intro i
  induction i with
  | zero =>
    intro ps p hp
    cases ps with
    | nil => simp [modifyAt] at hp
    | cons a t =>
      simp only [modifyAt, List.mem_cons] at hp
      rcases hp with rfl | hp
      · exact Or.inr ⟨a, by simp⟩
      · exact Or.inl (by simp [hp])
  | succ n ih =>
    intro ps p hp
    cases ps with
    | nil => simp [modifyAt] at hp
    | cons a t =>
      simp only [modifyAt, List.mem_cons] at hp
      rcases hp with rfl | hp
      · exact Or.inl (by simp)
      · rcases ih t p hp with h | ⟨q, hq, rfl⟩
        · exact Or.inl (by simp [h])
        · exact Or.inr ⟨q, by simp [hq]⟩

/-- The listener body preserves "listener installed iff promise pending". -/
theorem WaitProc.onEvent_inv (p : WaitProc) (h : String) (v : Nat)
    (hp : p.listening = p.outcome.isNone) :
    (p.onEvent h v).listening = (p.onEvent h v).outcome.isNone := by
  cases hl : p.listening with
  | true =>
    by_cases hm : h = p.target
    · simp [WaitProc.onEvent, hl, hm]
    · have hid : p.onEvent h v = p := by simp [WaitProc.onEvent, hl, hm]
      rw [hid]; exact hp
  | false =>
    have hid : p.onEvent h v = p := by simp [WaitProc.onEvent, hl]
    rw [hid]; exact hp

/-- The timer callback preserves "listener installed iff promise pending". -/
theorem WaitProc.onTimeout_inv (p : WaitProc)
    (hp : p.listening = p.outcome.isNone) :
    p.onTimeout.listening = p.onTimeout.outcome.isNone := by
  cases hl : p.listening with
  | true => simp [WaitProc.onTimeout, hl]
  | false =>
    have hid : p.onTimeout = p := by simp [WaitProc.onTimeout, hl]
    rw [hid]; exact hp

/-- One system operation preserves the pointwise invariant. -/
theorem sysStep_inv (ps : List WaitProc) (op : SysOp)
    (hps : ∀ p ∈ ps, p.listening = p.outcome.isNone) :
    ∀ p ∈ sysStep ps op, p.listening = p.outcome.isNone := by
  intro p hp
  cases op with
  | start h =>
    simp only [sysStep, List.mem_append, List.mem_singleton] at hp
    rcases hp with hp | rfl
    · exact hps p hp
    · rfl
  | deliver h v =>
    simp only [sysStep, List.mem_map] at hp
    obtain ⟨q, hq, rfl⟩ := hp
    exact WaitProc.onEvent_inv q h v (hps q hq)
  | fireTimeout i =>
    rcases modifyAt_mem WaitProc.onTimeout i ps p hp with hmem | ⟨q, hq, rfl⟩
    · exact hps p hmem
    · exact WaitProc.onTimeout_inv q (hps q hq)

/-- C9 amended: each in-flight `waitForDecryptResult` owns its own
`DecryptionResponse` subscription, installed when the wait starts and removed
exactly when that wait resolves or times out; consequently, in every system
state reachable from no waits, the number of active subscriptions equals the
number of outstanding (pending) waits — not at most one. -/
theorem subscriptions_per_wait (ops : List SysOp) :
    (∀ p ∈ sysRun [] ops, p.listening = p.outcome.isNone)
    ∧ activeSubscriptions (sysRun [] ops) =
        outstandingWaits (sysRun [] ops) := by
  have hinv : ∀ (ps : List WaitProc) (ops' : List SysOp),
      (∀ p ∈ ps, p.listening = p.outcome.isNone) →
      ∀ p ∈ sysRun ps ops', p.listening = p.outcome.isNone := by
    intro ps ops' hps
    induction ops' generalizing ps with
    | nil => exact hps
    | cons op t ih => exact ih (sysStep ps op) (sysStep_inv ps op hps)
  have h1 : ∀ p ∈ sysRun [] ops, p.listening = p.outcome.isNone :=
    hinv [] ops (by simp)
  refine ⟨h1, ?_⟩
  unfold activeSubscriptions outstandingWaits
  rw [List.filter_congr ?_]
  intro p hp
  exact h1 p hp

/-- Witness for the C9 amended theorem on a concrete operation sequence. -/
theorem subscriptions_per_wait_witness :
    activeSubscriptions (sysRun [] [SysOp.start "h1", SysOp.start "h2",
        SysOp.deliver "h1" 7]) =
      outstandingWaits (sysRun [] [SysOp.start "h1", SysOp.start "h2",
        SysOp.deliver "h1" 7]) :=
  (subscriptions_per_wait [SysOp.start "h1", SysOp.start "h2",
    SysOp.deliver "h1" 7]).2

/-- A ledger that permits public decryption of every handle, for the C3
counterexample. -/
def permissiveLedger : Ledger where
  isPublicDecryptAllowed := fun _ => true
  getDecryptedValue := fun _ => 7

/-- A concrete configuration for provider-state scenarios. -/
def witnessConfig : FHEConfig where
  chainId := 1
  gatewayAddress := "0x0000000000000000000000000000000000000001"

/-- The provider state left behind by an `initialize` whose engine
construction rejected. -/
def failedInitState : ProviderState :=
  ( ProviderState.fresh.initialize witnessConfig (some 0)
    (.error "engine construction failed")).1

/-- C3 counterexample: the state left by a failed `initialize` is not ready
(`isReady()` is false), yet `publicDecrypt` run from it does not fail with an
uninitialized error — it performs ledger calls (one `getDecryptedValue` read)
and resolves — and `decrypt` likewise reaches the ledger flow; this refutes
"whenever the machine is not ready, every encryption and decryption operation
fails with an uninitialized error and performs no engine or ledger call". -/
theorem notReady_decrypt_counterexample :
    failedInitState.isReady = false
    ∧ (failedInitState.publicDecryptM permissiveLedger "42").getterCalls = 1
    ∧ (failedInitState.publicDecryptM permissiveLedger "42").result =
        .ok (parseDecryptedValue "7")
    ∧ (failedInitState.decryptM "42" []).2 = true := by
  refine ⟨rfl, rfl, by decide, rfl⟩

/-- C3 amended: the eight encryption operations do fail with the
uninitialized error and make no engine call whenever the engine instance is
unset (which covers every state reachable without a completed `initialize`);
`decrypt` and `publicDecrypt` fail before any ledger interaction only when
`config` or `provider` is unset — in the not-ready state left by a failed
`initialize` both are set, and those operations proceed to the ledger. -/
theorem notReady_guards (s : ProviderState) (vb : Bool) (vq : ℚ) (vz : Int)
    (va : String) (L : Ledger) (handle : String) (evts : List WaitEvt) :
    (s.fheInstance = none →
      s.encryptBool vb =
        (.error "FHE Provider not initialized. Call initialize() first.", 0)
      ∧ s.encryptUint8 vq =
        (.error "FHE Provider not initialized. Call initialize() first.", 0)
      ∧ s.encryptUint16 vq =
        (.error "FHE Provider not initialized. Call initialize() first.", 0)
      ∧ s.encryptUint32 vq =
        (.error "FHE Provider not initialized. Call initialize() first.", 0)
      ∧ s.encryptUint64 vz =
        (.error "FHE Provider not initialized. Call initialize() first.", 0)
      ∧ s.encryptUint128 vz =
        (.error "FHE Provider not initialized. Call initialize() first.", 0)
      ∧ s.encryptUint256 vz =
        (.error "FHE Provider not initialized. Call initialize() first.", 0)
      ∧ s.encryptAddress va =
        (.error "FHE Provider not initialized. Call initialize() first.", 0))
    ∧ (s.config = none →
      s.publicDecryptM L handle =
        { result :=
            .error "FHE Provider not initialized. Call initialize() first."
          getterCalls := 0 }
      ∧ s.decryptM handle evts =
        (some (.error "FHE Provider not initialized. Call initialize() first."),
          false))
    ∧ (s.config.isSome = true → s.provider = none →
      s.publicDecryptM L handle =
        { result := .error "No provider set. Call setProvider() first."
          getterCalls := 0 }
      ∧ s.decryptM handle evts =
        (some (.error "No provider set. Call setProvider() first."), false)) := by
  refine ⟨?_, ?_, ?_⟩
  · intro hi
    refine ⟨?_, ?_, ?_, ?_, ?_, ?_, ?_, ?_⟩ <;>
      simp [ProviderState.encryptBool, ProviderState.encryptUint8,
        ProviderState.encryptUint16, ProviderState.encryptUint32,
        ProviderState.encryptUint64, ProviderState.encryptUint128,
        ProviderState.encryptUint256, ProviderState.encryptAddress,
        ProviderState.encryptWith, ProviderState.getInstance, hi]
  · intro hc
    constructor <;>
      simp [ProviderState.publicDecryptM, ProviderState.decryptM,
        ProviderState.getConfig, hc]
  · intro hc hp
    obtain ⟨cfg, hcfg⟩ := Option.isSome_iff_exists.mp hc
    constructor <;>
      simp [ProviderState.publicDecryptM, ProviderState.decryptM,
        ProviderState.getConfig, ProviderState.getProvider, hcfg, hp]

/-- Witness for the C3 amended theorem at the fresh provider state. -/
theorem notReady_guards_witness :
    ProviderState.fresh.fheInstance = none
    ∧ ProviderState.fresh.encryptBool true =
        (.error "FHE Provider not initialized. Call initialize() first.", 0) :=
  ⟨rfl, ((notReady_guards ProviderState.fresh true 0 0 "" permissiveLedger
      "h" []).1 rfl).1⟩

/-- Casting bridge: the JS-number range guard over ℚ on an integer input is
equivalent to the integer range guard. -/
theorem qRangeGuard (v Bi : Int) (Bq : ℚ) (hB : ((Bi : ℚ) = Bq)) :
    ((v : ℚ) < 0 ∨ (v : ℚ) > Bq) ↔ (v < 0 ∨ Bi < v) := by
  subst hB
  constructor
  · rintro (h | h)
    · exact Or.inl (by exact_mod_cast h)
    · exact Or.inr (by exact_mod_cast h)
  · rintro (h | h)
    · exact Or.inl (by exact_mod_cast h)
    · exact Or.inr (by exact_mod_cast h)

/-- C1: for every width in {8, 16, 32, 64, 128, 256} and every integer input,
the per-kind encrypt operation produced by `createFHEInstance` succeeds iff
`0 ≤ v ≤ 2^w − 1`; outside that range it throws the kind-specific range error
with zero calls to the engine operation of that kind. -/
theorem createFHEInstance_uint_range (eng : EngineStub) (w : Nat) (v : Int)
    (hw : w = 8 ∨ w = 16 ∨ w = 32 ∨ w = 64 ∨ w = 128 ∨ w = 256) :
    ((encryptUintAt (createFHEInstance eng) w v).1.isOk = true ↔
      (0 ≤ v ∧ v ≤ 2 ^ w - 1))
    ∧ (¬(0 ≤ v ∧ v ≤ 2 ^ w - 1) →
      encryptUintAt (createFHEInstance eng) w v =
        (.error (uintRangeError w), 0)) := by
  rcases hw with rfl | rfl | rfl | rfl | rfl | rfl
  · have hq := qRangeGuard v 255 255 (by norm_num)
    simp only [encryptUintAt, createFHEInstance, uintRangeError, hq]
    by_cases h : v < 0 ∨ 255 < v
    · rw [if_pos h]
      constructor
      · simp only [Except.isOk, Except.toBool]
        constructor
        · intro hf; exact absurd hf (by simp)
        · intro hr; exfalso; omega
      · intro _; rfl
    · rw [if_neg h]
      constructor
      · simp only [Except.isOk, Except.toBool]
        constructor
        · intro _; constructor <;> omega
        · intro _; trivial
      · intro hr; exfalso; apply hr; constructor <;> omega
  · have hq := qRangeGuard v 65535 65535 (by norm_num)
    simp only [encryptUintAt, createFHEInstance, uintRangeError, hq]
    by_cases h : v < 0 ∨ 65535 < v
    · rw [if_pos h]
      constructor
      · simp only [Except.isOk, Except.toBool]
        constructor
        · intro hf; exact absurd hf (by simp)
        · intro hr; exfalso; omega
      · intro _; rfl
    · rw [if_neg h]
      constructor
      · simp only [Except.isOk, Except.toBool]
        constructor
        · intro _; constructor <;> omega
        · intro _; trivial
      · intro hr; exfalso; apply hr; constructor <;> omega
  · have hq := qRangeGuard v 4294967295 4294967295 (by norm_num)
    simp only [encryptUintAt, createFHEInstance, uintRangeError, hq]
    by_cases h : v < 0 ∨ 4294967295 < v
    · rw [if_pos h]
      constructor
      · simp only [Except.isOk, Except.toBool]
        constructor
        · intro hf; exact absurd hf (by simp)
        · intro hr; exfalso; omega
      · intro _; rfl
    · rw [if_neg h]
      constructor
      · simp only [Except.isOk, Except.toBool]
        constructor
        · intro _; constructor <;> omega
        · intro _; trivial
      · intro hr; exfalso; apply hr; constructor <;> omega
  · have hpow : (2 : Int) ^ 64 - 1 = 18446744073709551615 := by norm_num
    simp only [encryptUintAt, createFHEInstance, uintRangeError, hpow]
    by_cases h : v < 0 ∨ 18446744073709551615 < v
    · rw [if_pos h]
      constructor
      · simp only [Except.isOk, Except.toBool]
        constructor
        · intro hf; exact absurd hf (by simp)
        · intro hr; exfalso; omega
      · intro _; rfl
    · rw [if_neg h]
      constructor
      · simp only [Except.isOk, Except.toBool]
        constructor
        · intro _; constructor <;> omega
        · intro _; trivial
      · intro hr; exfalso; apply hr; constructor <;> omega
  · have hpow : (2 : Int) ^ 128 - 1 = 340282366920938463463374607431768211455 := by
      norm_num
    simp only [encryptUintAt, createFHEInstance, uintRangeError, hpow]
    by_cases h : v < 0 ∨ (2 : Int) ^ 128 - 1 < v
    · rw [if_pos (by rw [hpow] at h; exact h)]
      constructor
      · simp only [Except.isOk, Except.toBool]
        constructor
        · intro hf; exact absurd hf (by simp)
        · intro hr; exfalso; rw [hpow] at h; omega
      · intro _; rfl
    · rw [if_neg (by rw [hpow] at h; exact h)]
      constructor
      · simp only [Except.isOk, Except.toBool]
        constructor
        · intro _; rw [hpow] at h; constructor <;> omega
        · intro _; trivial
      · intro hr; exfalso; apply hr; rw [hpow] at h; constructor <;> omega
  · have hpow : (2 : Int) ^ 256 - 1 =
        115792089237316195423570985008687907853269984665640564039457584007913129639935 := by
      norm_num
    simp only [encryptUintAt, createFHEInstance, uintRangeError, hpow]
    by_cases h : v < 0 ∨ (2 : Int) ^ 256 - 1 < v
    · rw [if_pos (by rw [hpow] at h; exact h)]
      constructor
      · simp only [Except.isOk, Except.toBool]
        constructor
        · intro hf; exact absurd hf (by simp)
        · intro hr; exfalso; rw [hpow] at h; omega
      · intro _; rfl
    · rw [if_neg (by rw [hpow] at h; exact h)]
      constructor
      · simp only [Except.isOk, Except.toBool]
        constructor
        · intro _; rw [hpow] at h; constructor <;> omega
        · intro _; trivial
      · intro hr; exfalso; apply hr; rw [hpow] at h; constructor <;> omega

/-- Witness for C1 at width 8 and the out-of-range input 300. -/
theorem createFHEInstance_uint_range_witness :
    ((8 : Nat) = 8 ∨ (8 : Nat) = 16 ∨ (8 : Nat) = 32 ∨ (8 : Nat) = 64 ∨
      (8 : Nat) = 128 ∨ (8 : Nat) = 256)
    ∧ (((encryptUintAt (createFHEInstance stubEngine) 8 300).1.isOk = true ↔
        (0 ≤ (300 : Int) ∧ (300 : Int) ≤ 2 ^ 8 - 1))
      ∧ (¬(0 ≤ (300 : Int) ∧ (300 : Int) ≤ 2 ^ 8 - 1) →
        encryptUintAt (createFHEInstance stubEngine) 8 300 =
          (.error (uintRangeError 8), 0))) :=
  ⟨Or.inl rfl, createFHEInstance_uint_range stubEngine 8 300 (Or.inl rfl)⟩

/-- C4: for every raw scalar string, `parseDecryptedValue` keeps the raw
string in `value`; `numberValue` is present iff the base-10 integer parse of
the string round-trips exactly back to it, and then equals that integer;
`boolValue` is present iff `numberValue` is exactly 0 or 1 (false/true
respectively); `bigintValue` is, independently, exactly the big-integer parse
of the string.  `"0"` yields `numberValue` 0 and `boolValue` false, `"1"`
yields `boolValue` true, `"2"` yields `numberValue` 2 and no `boolValue`.
The hypothesis keeps the input inside the range where the model of JS
`parseInt`/`toString` is exact (no float rounding). -/
theorem parseDecryptedValue_spec (s : String)
    (hsafe : ∀ n, jsParseInt s = some n → n.natAbs ≤ 2 ^ 53) :
    ((parseDecryptedValue s).value = s)
    ∧ (∀ n, (parseDecryptedValue s).numberValue = some n ↔
        (jsParseInt s = some n ∧ intToDecString n = s))
    ∧ ((parseDecryptedValue s).boolValue = some false ↔
        (parseDecryptedValue s).numberValue = some 0)
    ∧ ((parseDecryptedValue s).boolValue = some true ↔
        (parseDecryptedValue s).numberValue = some 1)
    ∧ ((parseDecryptedValue s).boolValue.isSome = true ↔
        ((parseDecryptedValue s).numberValue = some 0 ∨
          (parseDecryptedValue s).numberValue = some 1))
    ∧ ((parseDecryptedValue s).bigintValue = jsBigInt s)
    ∧ parseDecryptedValue "0" =
        { value := "0", numberValue := some 0, bigintValue := some 0,
          boolValue := some false }
    ∧ parseDecryptedValue "1" =
        { value := "1", numberValue := some 1, bigintValue := some 1,
          boolValue := some true }
    ∧ parseDecryptedValue "2" =
        { value := "2", numberValue := some 2, bigintValue := some 2,
          boolValue := none } := by
  have hnum : (parseDecryptedValue s).numberValue =
      (match jsParseInt s with
      | none => none
      | some num => if intToDecString num = s then some num else none) := by
    simp [parseDecryptedValue]
  have hbool : (parseDecryptedValue s).boolValue =
      (match (parseDecryptedValue s).numberValue with
      | none => none
      | some num =>
        if num = 0 ∨ num = 1 then some (decide (num = 1)) else none) := by
    rw [hnum]
    simp [parseDecryptedValue]
  refine ⟨by simp [parseDecryptedValue], ?_, ?_, ?_, ?_,
    by simp [parseDecryptedValue], by decide, by decide, by decide⟩
  · intro n
    rw [hnum]
    cases hp : jsParseInt s with
    | none => simp
    | some k =>
      by_cases hrt : intToDecString k = s
      · simp only [if_pos hrt]
        constructor
        · intro h
          injection h with hk
          subst hk
          exact ⟨rfl, hrt⟩
        · rintro ⟨h1, _⟩
          injection h1 with hk
          rw [hk]
      · simp only [if_neg hrt]
        constructor
        · intro h; exact absurd h (by simp)
        · rintro ⟨h1, h2⟩
          injection h1 with hk
          subst hk
          exact absurd h2 hrt
  · rw [hbool]
    cases hn : (parseDecryptedValue s).numberValue with
    | none => simp
    | some k =>
      by_cases hk : k = 0 ∨ k = 1
      · simp only [if_pos hk]
        rcases hk with rfl | rfl <;> simp
      · simp only [if_neg hk]
        constructor
        · intro h; exact absurd h (by simp)
        · intro h
          injection h with hk0
          exact absurd (Or.inl hk0) hk
  · rw [hbool]
    cases hn : (parseDecryptedValue s).numberValue with
    | none => simp
    | some k =>
      by_cases hk : k = 0 ∨ k = 1
      · simp only [if_pos hk]
        rcases hk with rfl | rfl <;> simp
      · simp only [if_neg hk]
        constructor
        · intro h; exact absurd h (by simp)
        · intro h
          injection h with hk1
          exact absurd (Or.inr hk1) hk
  · rw [hbool]
    cases hn : (parseDecryptedValue s).numberValue with
    | none => simp
    | some k =>
      by_cases hk : k = 0 ∨ k = 1
      · simp only [if_pos hk]
        rcases hk with rfl | rfl <;> simp
      · simp only [if_neg hk]
        constructor
        · intro h; exact absurd h (by simp)
        · rintro (h | h) <;> injection h with hk' <;>
            [exact absurd (Or.inl hk') hk; exact absurd (Or.inr hk') hk]

/-- Witness for C4 at the raw scalar `"7"`. -/
theorem parseDecryptedValue_spec_witness :
    (∀ n, jsParseInt "7" = some n → n.natAbs ≤ 2 ^ 53)
    ∧ (parseDecryptedValue "7").value = "7"
    ∧ (parseDecryptedValue "7").boolValue.isSome = false := by
  have hsafe : ∀ n, jsParseInt "7" = some n → n.natAbs ≤ 2 ^ 53 := by
    intro n hn
    have h7 : jsParseInt "7" = some 7 := by decide
    rw [h7] at hn
    injection hn with hk
    subst hk
    decide
  have hspec := parseDecryptedValue_spec "7" hsafe
  refine ⟨hsafe, hspec.1, ?_⟩
  have hb := hspec.2.2.2.2.1
  have hnum : (parseDecryptedValue "7").numberValue = some 7 := by decide
  cases hs : (parseDecryptedValue "7").boolValue.isSome with
  | false => rfl
  | true =>
    rcases hb.mp hs with h | h <;> rw [hnum] at h <;>
      injection h with hk <;> exact absurd hk (by decide)
